import Mathlib

/-!
# Verification of the presubmit-job lifecycle manager

A shallow embedding of the job-supersession (termination/dedup) engine
(`prow/pjutil/abort.go`) and of the skip-command status resolver, together
with proofs of the specified properties.

The termination engine is embedded faithfully from the Go source:
machine state (the job slice, the duplicate map, the set of cleaned-up
jobs) is passed explicitly, the scan is a structural recursion over the
remaining iteration count, and the fallible persistence collaborator is a
function into `Except`.
-/

/-- Job kind (`prowapi.ProwJobType`): only presubmit jobs are actionable
by the termination engine. -/
inductive ProwJobType where
  | presubmit
  | postsubmit
  | periodic
  | batch
deriving DecidableEq, Repr

/-- Lifecycle state of a prow job (`prowapi.ProwJobState`). -/
inductive ProwJobState where
  | triggered
  | pending
  | success
  | failure
  | error
  | aborted
deriving DecidableEq, Repr

/-- A pull request reference (`prowapi.Pull`): only the number is relevant
to the identity key. -/
structure Pull where
  number : Nat
deriving DecidableEq, Repr

/-- Source refs of a job (`prowapi.Refs`). -/
structure Refs where
  org : String
  repo : String
  pulls : List Pull
deriving DecidableEq, Repr

/-- The job spec (`prowapi.ProwJobSpec`): kind, job name and refs. -/
structure ProwJobSpec where
  type : ProwJobType
  job : String
  refs : Refs
deriving DecidableEq, Repr

/-- The job status (`prowapi.ProwJobStatus`): start timestamp (modelled as
a natural number, compared by strict less-than, matching `Time.Before`),
the completion flag (modelled from the spec: "completion flag"; in the
source it is `CompletionTime != nil`), and the lifecycle state. -/
structure ProwJobStatus where
  startTime : Nat
  complete : Bool
  state : ProwJobState
deriving DecidableEq, Repr

/-- A prow job record (`prowapi.ProwJob`): persistence name
(`ObjectMeta.Name`), spec and status. -/
structure ProwJob where
  name : String
  spec : ProwJobSpec
  status : ProwJobStatus
deriving DecidableEq, Repr

/-- `ProwJob.Complete()`: whether the job has finished. -/
def ProwJob.Complete (pj : ProwJob) : Bool :=
  pj.status.complete

/-- `ProwJob.SetComplete()`: mark the job as finished. -/
def ProwJob.SetComplete (pj : ProwJob) : ProwJob :=
  { pj with status.complete := true }

/-- `jobIndentifier` (sic, the source's spelling): the information required
to uniquely identify a prow job for duplicate detection. -/
structure jobIndentifier where
  job : String
  organization : String
  repository : String
  pullRequest : Nat
deriving DecidableEq, Repr

/-- The identity key built by `TerminateOlderPresubmitJobs` for a job:
job name, organization, repository and the number of the first
pull-request ref (`pj.Spec.Refs.Pulls[0].Number`).  The source indexes
`Pulls[0]` directly; the total embedding takes an explicit default pull
`dflt` used only when the pull list is empty (the out-of-range case). -/
def jobIdentifierOf (dflt : Pull) (pj : ProwJob) : jobIndentifier :=
  { job := pj.spec.job
    organization := pj.spec.refs.org
    repository := pj.spec.refs.repo
    pullRequest := (pj.spec.refs.pulls.headD dflt).number }

/-- Lookup in the duplicate map, embedded as an association list with
most-recent-binding-first semantics (insertion is by consing, so it
shadows, exactly like assignment into a Go map). -/
def lookupDupe : List (jobIndentifier × Nat) → jobIndentifier → Option Nat
  | [], _ => none
  | (k, v) :: rest, ji => if k = ji then some v else lookupDupe rest ji

/-- The terminal transition applied to a job selected for cancellation:
`toCancel.SetComplete()` followed by `toCancel.Status.State = AbortedState`.
Everything else in the record is untouched. -/
def abortJob (pj : ProwJob) : ProwJob :=
  { pj.SetComplete with status.state := ProwJobState.aborted }

/-- The observable outcome of a run of the termination engine: the final
job sequence (the caller-owned slice, mutated in place in the source), the
final duplicate map (ghost state, exposed for specification), the indices
of the jobs passed to the cleanup callback in call order, and the error
returned, if any. -/
structure TermOutcome (ε : Type) where
  pjs : List ProwJob
  dupes : List (jobIndentifier × Nat)
  cleaned : List Nat
  err : Option ε
deriving DecidableEq, Repr

/-- One-to-one embedding of the loop body of
`prowJobAborter.TerminateOlderPresubmitJobs`: `i` is the current index of
the `for i, pj := range pjs` loop and `k` the number of iterations left.
The cleanup callback's error is only logged in the source, so its result
is bound and discarded here; the persistence collaborator
(`ReplaceProwJob`) is a function `replace` into `Except`. -/
def terminateGo {ε κ : Type} (replace : String → ProwJob → Except ε ProwJob)
    (cleanup : ProwJob → Option κ) (dflt : Pull) :
    Nat → Nat → List ProwJob → List (jobIndentifier × Nat) → List Nat → TermOutcome ε
  | _, 0, pjs, dupes, cleaned => ⟨pjs, dupes, cleaned, none⟩
  | i, k + 1, pjs, dupes, cleaned =>
    match pjs[i]? with
    | none => ⟨pjs, dupes, cleaned, none⟩
    | some pj =>
      if pj.status.complete = true ∨ pj.spec.type ≠ ProwJobType.presubmit then
        terminateGo replace cleanup dflt (i + 1) k pjs dupes cleaned
      else
        let ji := jobIdentifierOf dflt pj
        match lookupDupe dupes ji with
        | none => terminateGo replace cleanup dflt (i + 1) k pjs ((ji, i) :: dupes) cleaned
        | some prev =>
          let prevPj := pjs[prev]?.getD pj
          let cancelIndex := if prevPj.status.startTime < pj.status.startTime then prev else i
          let dupes' := if prevPj.status.startTime < pj.status.startTime then (ji, i) :: dupes else dupes
          let toCancel := pjs[cancelIndex]?.getD pj
          let _cl := cleanup toCancel
          let toCancel' := abortJob toCancel
          match replace toCancel'.name toCancel' with
          | Except.error e => ⟨pjs, dupes', cleaned ++ [cancelIndex], some e⟩
          | Except.ok npj =>
            terminateGo replace cleanup dflt (i + 1) k (pjs.set cancelIndex npj)
              dupes' (cleaned ++ [cancelIndex])

/-- `prowJobAborter.TerminateOlderPresubmitJobs`: scan the whole sequence
from index 0 with an empty duplicate map. -/
def TerminateOlderPresubmitJobs {ε κ : Type}
    (replace : String → ProwJob → Except ε ProwJob)
    (cleanup : ProwJob → Option κ) (dflt : Pull) (pjs : List ProwJob) : TermOutcome ε :=
  terminateGo replace cleanup dflt 0 pjs.length pjs [] []

/-- A job is a candidate for duplicate tracking and cancellation: not yet
complete and of presubmit kind (the negation of the loop's skip test). -/
def Cand (pj : ProwJob) : Prop :=
  pj.status.complete = false ∧ pj.spec.type = ProwJobType.presubmit

instance (pj : ProwJob) : Decidable (Cand pj) :=
  inferInstanceAs (Decidable (pj.status.complete = false ∧
    pj.spec.type = ProwJobType.presubmit))

/-! ## The Skip Resolver -/

/-- State of a posted status context (`scallywag.Status` states). -/
inductive StatusState where
  | success
  | failure
  | pending
  | error
deriving DecidableEq, Repr

/-- A status context posted against a commit: context name, state and
description. -/
structure Status where
  context : String
  state : StatusState
  description : String
deriving DecidableEq, Repr

/-- A presubmit definition as seen by the Skip Resolver: the reported
status-context name, the optional flag, and the compiled trigger match
pattern, modelled as a predicate on comment bodies. -/
structure Presubmit where
  context : String
  optional : Bool
  triggerMatches : String → Bool

/-- Kind of a comment action. -/
inductive GenericCommentAction where
  | created
  | edited
  | deleted
deriving DecidableEq, Repr

/-- A comment event: pull-request flag, issue open state, action kind,
raw body and the resolved head commit of the pull request. -/
structure GenericCommentEvent where
  isPR : Bool
  issueState : String
  action : GenericCommentAction
  body : String
  headSHA : String

/-- Modelled from the spec: the eligibility rule of the Skip Resolver
(the resolver's implementation, the skip plugin's `handle`, is not under
`src/`; only its tests are).  A definition is eligible iff it is
optional, its own trigger pattern does not match the comment body, and a
status context with its reported context name currently exists in state
failure or pending. -/
def skipEligible (body : String) (existing : List Status) (p : Presubmit) : Bool :=
  p.optional &&
    !p.triggerMatches body &&
    (match existing.find? (fun st => st.context == p.context) with
     | some st => st.state == StatusState.failure || st.state == StatusState.pending
     | none => false)

/-- Modelled from the spec: the Skip Resolver.  It acts only on created
comments on open pull requests (the skip-command recognition itself is a
precondition discharged by the dispatcher and is not part of this
component).  For every eligible definition it issues exactly one status
write — state success, description "Skipped", the definition's context —
against the pull request's head commit.  The returned list is the
sequence of issued writes, each tagged with the target commit. -/
def ResolveSkips (e : GenericCommentEvent) (presubmits : List Presubmit)
    (existing : List Status) : List (String × Status) :=
  if e.isPR = false ∨ e.issueState ≠ "open" ∨ e.action ≠ GenericCommentAction.created then
    []
  else
    (presubmits.filter (skipEligible e.body existing)).map
      (fun p => (e.headSHA,
        { context := p.context, state := StatusState.success, description := "Skipped" }))

/-! ## Invariants of the termination scan -/

theorem not_cand_of_skip {pj : ProwJob}
    (h : pj.status.complete = true ∨ pj.spec.type ≠ ProwJobType.presubmit) : ¬ Cand pj := by
  rintro ⟨h1, h2⟩
  rcases h with h | h
  · rw [h1] at h
    cases h
  · exact h h2

theorem cand_of_not_skip {pj : ProwJob}
    (h : ¬(pj.status.complete = true ∨ pj.spec.type ≠ ProwJobType.presubmit)) : Cand pj := by
  push_neg at h
  exact ⟨by simpa using h.1, h.2⟩

theorem lookupDupe_cons (k : jobIndentifier) (v : Nat) (d : List (jobIndentifier × Nat))
    (ji : jobIndentifier) :
    lookupDupe ((k, v) :: d) ji = if k = ji then some v else lookupDupe d ji := rfl

section TerminationInvariant

variable {ε κ : Type}

/-- The state invariant on the parts of the scan state that do not involve
the duplicate map: `pjs0` is the sequence at call start, `i` the current
loop index, `pjs` the current (partially updated) sequence and `cleaned`
the indices cancelled so far, in order. -/
structure InvCore (replace : String → ProwJob → Except ε ProwJob) (pjs0 : List ProwJob)
    (i : Nat) (pjs : List ProwJob) (cleaned : List Nat) : Prop where
  len : pjs.length = pjs0.length
  frame : ∀ j : Nat, j ∉ cleaned → pjs[j]? = pjs0[j]?
  cleaned_lt : ∀ j ∈ cleaned, j < i
  cleaned_cand : ∀ j ∈ cleaned, ∃ pj0, pjs0[j]? = some pj0 ∧ Cand pj0
  cleaned_nodup : cleaned.Nodup
  cleaned_stored : ∀ j ∈ cleaned, ∃ pj0 npj, pjs0[j]? = some pj0 ∧
    replace (abortJob pj0).name (abortJob pj0) = Except.ok npj ∧ pjs[j]? = some npj

/-- Every index in the duplicate map points at an incomplete presubmit
job of the original sequence carrying the mapped key. -/
def DupesWeak (dflt : Pull) (pjs0 : List ProwJob)
    (dupes : List (jobIndentifier × Nat)) : Prop :=
  ∀ ji r, lookupDupe dupes ji = some r →
    ∃ pj0, pjs0[r]? = some pj0 ∧ Cand pj0 ∧ jobIdentifierOf dflt pj0 = ji

/-- The full loop invariant of the termination scan. -/
structure TermInv (replace : String → ProwJob → Except ε ProwJob) (dflt : Pull)
    (pjs0 : List ProwJob) (i : Nat) (pjs : List ProwJob)
    (dupes : List (jobIndentifier × Nat)) (cleaned : List Nat) : Prop where
  core : InvCore replace pjs0 i pjs cleaned
  dupes_dom : ∀ ji r, lookupDupe dupes ji = some r → r < i ∧ r ∉ cleaned ∧
    ∃ pj0, pjs0[r]? = some pj0 ∧ Cand pj0 ∧ jobIdentifierOf dflt pj0 = ji
  dupes_total : ∀ j pj0, j < i → pjs0[j]? = some pj0 → Cand pj0 →
    ∃ r, lookupDupe dupes (jobIdentifierOf dflt pj0) = some r
  part : ∀ j pj0, j < i → pjs0[j]? = some pj0 → Cand pj0 →
    lookupDupe dupes (jobIdentifierOf dflt pj0) = some j ∨ j ∈ cleaned
  max_prop : ∀ ji r rpj, lookupDupe dupes ji = some r → pjs0[r]? = some rpj →
    ∀ j pj0, j < i → pjs0[j]? = some pj0 → Cand pj0 → jobIdentifierOf dflt pj0 = ji →
    pj0.status.startTime < rpj.status.startTime ∨
      (pj0.status.startTime = rpj.status.startTime ∧ r ≤ j)

theorem TermInv.i_not_cleaned {replace : String → ProwJob → Except ε ProwJob} {dflt pjs0 i pjs dupes cleaned}
    (hinv : TermInv replace dflt pjs0 i pjs dupes cleaned) : i ∉ cleaned :=
  fun h => absurd (hinv.core.cleaned_lt i h) (lt_irrefl i)

theorem TermInv.cur_slot {replace : String → ProwJob → Except ε ProwJob} {dflt pjs0 i pjs dupes cleaned}
    {pj : ProwJob} (hinv : TermInv replace dflt pjs0 i pjs dupes cleaned)
    (hpj : pjs[i]? = some pj) : pjs0[i]? = some pj :=
  (hinv.core.frame i hinv.i_not_cleaned).symm.trans hpj

/-- The outcome postcondition established by the scan: a successful run
re-establishes the invariant at the end of the sequence; a failed run
exposes the failing cancellation as the last cleaned index, with the
invariant holding for the prefix before it. -/
structure TermPost (replace : String → ProwJob → Except ε ProwJob) (dflt : Pull)
    (pjs0 : List ProwJob) (o : TermOutcome ε) : Prop where
  on_ok : o.err = none →
    TermInv replace dflt pjs0 pjs0.length o.pjs o.dupes o.cleaned
  on_err : ∀ e, o.err = some e → ∃ cleaned0 c i' cpj,
    o.cleaned = cleaned0 ++ [c] ∧ c ∉ cleaned0 ∧
    InvCore replace pjs0 i' o.pjs cleaned0 ∧
    pjs0[c]? = some cpj ∧ Cand cpj ∧
    replace (abortJob cpj).name (abortJob cpj) = Except.error e ∧
    DupesWeak dflt pjs0 o.dupes

theorem nodup_concat_of {l : List Nat} {a : Nat} (h : l.Nodup) (ha : a ∉ l) :
    (l ++ [a]).Nodup := by
  simp [List.nodup_append, h, ha]

theorem mem_concat_iff {l : List Nat} {a j : Nat} : j ∈ l ++ [a] ↔ j ∈ l ∨ j = a := by
  simp

/-- Preservation of the invariant when the scanned job is skipped
(already complete, or not a presubmit). -/
theorem inv_skip {replace : String → ProwJob → Except ε ProwJob}
    {dflt : Pull} {pjs0 pjs : List ProwJob} {i : Nat}
    {dupes : List (jobIndentifier × Nat)} {cleaned : List Nat} {pj : ProwJob}
    (hinv : TermInv replace dflt pjs0 i pjs dupes cleaned)
    (hpj : pjs[i]? = some pj)
    (hskip : pj.status.complete = true ∨ pj.spec.type ≠ ProwJobType.presubmit) :
    TermInv replace dflt pjs0 (i + 1) pjs dupes cleaned := by
  have hpj0 : pjs0[i]? = some pj := hinv.cur_slot hpj
  have hpjeq : ∀ {pj0 : ProwJob}, pjs0[i]? = some pj0 → pj0 = pj := fun h =>
    (Option.some.inj (hpj0.symm.trans h)).symm
  refine ⟨⟨hinv.core.len, hinv.core.frame, ?_, hinv.core.cleaned_cand,
    hinv.core.cleaned_nodup, hinv.core.cleaned_stored⟩, ?_, ?_, ?_, ?_⟩
  · exact fun j hj => Nat.lt_succ_of_lt (hinv.core.cleaned_lt j hj)
  · intro ji r hr
    obtain ⟨h1, h2, h3⟩ := hinv.dupes_dom ji r hr
    exact ⟨Nat.lt_succ_of_lt h1, h2, h3⟩
  · intro j pj0 hj hj0 hc
    rcases Nat.lt_succ_iff_lt_or_eq.mp hj with hj' | rfl
    · exact hinv.dupes_total j pj0 hj' hj0 hc
    · cases hpjeq hj0
      exact absurd hc (not_cand_of_skip hskip)
  · intro j pj0 hj hj0 hc
    rcases Nat.lt_succ_iff_lt_or_eq.mp hj with hj' | rfl
    · exact hinv.part j pj0 hj' hj0 hc
    · cases hpjeq hj0
      exact absurd hc (not_cand_of_skip hskip)
  · intro ji r rpj hr hrpj j pj0 hj hj0 hc hk
    rcases Nat.lt_succ_iff_lt_or_eq.mp hj with hj' | rfl
    · exact hinv.max_prop ji r rpj hr hrpj j pj0 hj' hj0 hc hk
    · cases hpjeq hj0
      exact absurd hc (not_cand_of_skip hskip)

/-- Preservation of the invariant on first sight of an identity key: the
index is recorded as retained and nothing else changes. -/
theorem inv_first {replace : String → ProwJob → Except ε ProwJob}
    {dflt : Pull} {pjs0 pjs : List ProwJob} {i : Nat}
    {dupes : List (jobIndentifier × Nat)} {cleaned : List Nat} {pj : ProwJob}
    (hinv : TermInv replace dflt pjs0 i pjs dupes cleaned)
    (hpj : pjs[i]? = some pj) (hcand : Cand pj)
    (hlk : lookupDupe dupes (jobIdentifierOf dflt pj) = none) :
    TermInv replace dflt pjs0 (i + 1) pjs ((jobIdentifierOf dflt pj, i) :: dupes) cleaned := by
  have hpj0 : pjs0[i]? = some pj := hinv.cur_slot hpj
  have hpjeq : ∀ {pj0 : ProwJob}, pjs0[i]? = some pj0 → pj0 = pj := fun h =>
    (Option.some.inj (hpj0.symm.trans h)).symm
  refine ⟨⟨hinv.core.len, hinv.core.frame, ?_, hinv.core.cleaned_cand,
    hinv.core.cleaned_nodup, hinv.core.cleaned_stored⟩, ?_, ?_, ?_, ?_⟩
  · exact fun j hj => Nat.lt_succ_of_lt (hinv.core.cleaned_lt j hj)
  · intro ji r hr
    rw [lookupDupe_cons] at hr
    by_cases hk : jobIdentifierOf dflt pj = ji
    · rw [if_pos hk] at hr
      cases Option.some.inj hr
      exact ⟨Nat.lt_succ_self i, hinv.i_not_cleaned, pj, hpj0, hcand, hk⟩
    · rw [if_neg hk] at hr
      obtain ⟨h1, h2, h3⟩ := hinv.dupes_dom ji r hr
      exact ⟨Nat.lt_succ_of_lt h1, h2, h3⟩
  · intro j pj0 hj hj0 hc
    by_cases hk : jobIdentifierOf dflt pj = jobIdentifierOf dflt pj0
    · exact ⟨i, by rw [lookupDupe_cons, if_pos hk]⟩
    · rcases Nat.lt_succ_iff_lt_or_eq.mp hj with hj' | rfl
      · obtain ⟨r, hr⟩ := hinv.dupes_total j pj0 hj' hj0 hc
        exact ⟨r, by rw [lookupDupe_cons, if_neg hk]; exact hr⟩
      · cases hpjeq hj0
        exact absurd rfl hk
  · intro j pj0 hj hj0 hc
    rcases Nat.lt_succ_iff_lt_or_eq.mp hj with hj' | rfl
    · rcases hinv.part j pj0 hj' hj0 hc with hl | hcl
      · left
        rw [lookupDupe_cons]
        by_cases hk : jobIdentifierOf dflt pj = jobIdentifierOf dflt pj0
        · rw [← hk, hlk] at hl
          cases hl
        · rw [if_neg hk]
          exact hl
      · right
        exact hcl
    · cases hpjeq hj0
      left
      rw [lookupDupe_cons, if_pos rfl]
  · intro ji r rpj hr hrpj j pj0 hj hj0 hc hk
    rw [lookupDupe_cons] at hr
    by_cases hji : jobIdentifierOf dflt pj = ji
    · rw [if_pos hji] at hr
      cases Option.some.inj hr
      cases hpjeq hrpj
      rcases Nat.lt_succ_iff_lt_or_eq.mp hj with hj' | rfl
      · exfalso
        obtain ⟨r', hr'⟩ := hinv.dupes_total j pj0 hj' hj0 hc
        rw [hk, ← hji, hlk] at hr'
        cases hr'
      · cases hpjeq hj0
        exact Or.inr ⟨rfl, Nat.le_refl _⟩
    · rw [if_neg hji] at hr
      rcases Nat.lt_succ_iff_lt_or_eq.mp hj with hj' | rfl
      · exact hinv.max_prop ji r rpj hr hrpj j pj0 hj' hj0 hc hk
      · cases hpjeq hj0
        exact absurd hk hji

/-- Preservation of the invariant when the previously retained candidate
is cancelled (its start time is strictly earlier than the newly seen
job's) and the persistence call succeeds. -/
theorem inv_cancel_prev {replace : String → ProwJob → Except ε ProwJob}
    {dflt : Pull} {pjs0 pjs : List ProwJob} {i prev : Nat}
    {dupes : List (jobIndentifier × Nat)} {cleaned : List Nat} {pj ppj npj : ProwJob}
    (hinv : TermInv replace dflt pjs0 i pjs dupes cleaned)
    (hpj : pjs[i]? = some pj) (hcand : Cand pj)
    (hlk : lookupDupe dupes (jobIdentifierOf dflt pj) = some prev)
    (hppj0 : pjs0[prev]? = some ppj)
    (hlt : ppj.status.startTime < pj.status.startTime)
    (hrep : replace (abortJob ppj).name (abortJob ppj) = Except.ok npj) :
    TermInv replace dflt pjs0 (i + 1) (pjs.set prev npj)
      ((jobIdentifierOf dflt pj, i) :: dupes) (cleaned ++ [prev]) := by
  obtain ⟨hprevlt, hprevnc, ppj', hppj0', hcandp, hkeyp⟩ := hinv.dupes_dom _ _ hlk
  rw [hppj0] at hppj0'
  obtain rfl : ppj = ppj' := Option.some.inj hppj0'
  have hpj0 : pjs0[i]? = some pj := hinv.cur_slot hpj
  have hpjeq : ∀ {pj0 : ProwJob}, pjs0[i]? = some pj0 → pj0 = pj := fun h =>
    (Option.some.inj (hpj0.symm.trans h)).symm
  have hprevne_i : prev ≠ i := Nat.ne_of_lt hprevlt
  have hinc : i ∉ cleaned := hinv.i_not_cleaned
  have hprevlen : prev < pjs.length := by
    rw [hinv.core.len]
    exact List.getElem?_eq_some.mp hppj0 |>.1
  refine ⟨⟨?_, ?_, ?_, ?_, ?_, ?_⟩, ?_, ?_, ?_, ?_⟩
  · rw [List.length_set, hinv.core.len]
  · intro j hj
    rw [mem_concat_iff] at hj
    push_neg at hj
    rw [List.getElem?_set_ne (Ne.symm hj.2)]
    exact hinv.core.frame j hj.1
  · intro j hj
    rw [mem_concat_iff] at hj
    rcases hj with hj | rfl
    · exact Nat.lt_succ_of_lt (hinv.core.cleaned_lt j hj)
    · exact Nat.lt_succ_of_lt hprevlt
  · intro j hj
    rw [mem_concat_iff] at hj
    rcases hj with hj | rfl
    · exact hinv.core.cleaned_cand j hj
    · exact ⟨ppj, hppj0, hcandp⟩
  · exact nodup_concat_of hinv.core.cleaned_nodup hprevnc
  · intro j hj
    rw [mem_concat_iff] at hj
    rcases hj with hj | rfl
    · obtain ⟨pj0, npj', h1, h2, h3⟩ := hinv.core.cleaned_stored j hj
      have hjne : prev ≠ j := fun h => hprevnc (h ▸ hj)
      refine ⟨pj0, npj', h1, h2, ?_⟩
      rw [List.getElem?_set_ne hjne]
      exact h3
    · exact ⟨ppj, npj, hppj0, hrep, List.getElem?_set_eq_of_lt npj hprevlen⟩
  · intro ji' r hr
    rw [lookupDupe_cons] at hr
    by_cases hk : jobIdentifierOf dflt pj = ji'
    · rw [if_pos hk] at hr
      obtain rfl : i = r := Option.some.inj hr
      refine ⟨Nat.lt_succ_self _, ?_, pj, hpj0, hcand, hk⟩
      rw [mem_concat_iff]
      push_neg
      exact ⟨hinc, Ne.symm hprevne_i⟩
    · rw [if_neg hk] at hr
      obtain ⟨h1, h2, pj0, h3, h4, h5⟩ := hinv.dupes_dom ji' r hr
      refine ⟨Nat.lt_succ_of_lt h1, ?_, pj0, h3, h4, h5⟩
      rw [mem_concat_iff]
      push_neg
      refine ⟨h2, ?_⟩
      intro hre
      subst hre
      rw [hppj0] at h3
      obtain rfl : pj0 = ppj := (Option.some.inj h3).symm
      exact hk (hkeyp.symm.trans h5)
  · intro j pj0 hj hj0 hc
    by_cases hk : jobIdentifierOf dflt pj = jobIdentifierOf dflt pj0
    · exact ⟨i, by rw [lookupDupe_cons, if_pos hk]⟩
    · rcases Nat.lt_succ_iff_lt_or_eq.mp hj with hj' | rfl
      · obtain ⟨r, hr⟩ := hinv.dupes_total j pj0 hj' hj0 hc
        exact ⟨r, by rw [lookupDupe_cons, if_neg hk]; exact hr⟩
      · cases hpjeq hj0
        exact absurd rfl hk
  · intro j pj0 hj hj0 hc
    rcases Nat.lt_succ_iff_lt_or_eq.mp hj with hj' | rfl
    · rcases hinv.part j pj0 hj' hj0 hc with hl | hcl
      · by_cases hk : jobIdentifierOf dflt pj = jobIdentifierOf dflt pj0
        · right
          rw [mem_concat_iff]
          right
          rw [← hk, hlk] at hl
          exact (Option.some.inj hl).symm
        · left
          rw [lookupDupe_cons, if_neg hk]
          exact hl
      · right
        rw [mem_concat_iff]
        exact Or.inl hcl
    · cases hpjeq hj0
      left
      rw [lookupDupe_cons, if_pos rfl]
  · intro ji' r rpj hr hrpj j pj0 hj hj0 hc hk
    rw [lookupDupe_cons] at hr
    by_cases hji : jobIdentifierOf dflt pj = ji'
    · rw [if_pos hji] at hr
      obtain rfl : i = r := Option.some.inj hr
      have hrpj' : rpj = pj := hpjeq hrpj
      subst hrpj'
      rcases Nat.lt_succ_iff_lt_or_eq.mp hj with hj' | rfl
      · have hold := hinv.max_prop _ _ _ hlk hppj0 j pj0 hj' hj0 hc (by rw [hk, ← hji])
        left
        rcases hold with hlt' | ⟨heq, _⟩
        · exact Nat.lt_trans hlt' hlt
        · rw [heq]
          exact hlt
      · cases hpjeq hj0
        exact Or.inr ⟨rfl, Nat.le_refl _⟩
    · rw [if_neg hji] at hr
      rcases Nat.lt_succ_iff_lt_or_eq.mp hj with hj' | rfl
      · exact hinv.max_prop ji' r rpj hr hrpj j pj0 hj' hj0 hc hk
      · cases hpjeq hj0
        exact absurd hk hji

/-- Preservation of the invariant when the newly seen job is cancelled
(the retained candidate's start time is not strictly earlier) and the
persistence call succeeds.  The retained index and the duplicate map are
unchanged. -/
theorem inv_cancel_cur {replace : String → ProwJob → Except ε ProwJob}
    {dflt : Pull} {pjs0 pjs : List ProwJob} {i prev : Nat}
    {dupes : List (jobIndentifier × Nat)} {cleaned : List Nat} {pj ppj npj : ProwJob}
    (hinv : TermInv replace dflt pjs0 i pjs dupes cleaned)
    (hpj : pjs[i]? = some pj) (hcand : Cand pj)
    (hlk : lookupDupe dupes (jobIdentifierOf dflt pj) = some prev)
    (hppj0 : pjs0[prev]? = some ppj)
    (hge : ¬ ppj.status.startTime < pj.status.startTime)
    (hrep : replace (abortJob pj).name (abortJob pj) = Except.ok npj) :
    TermInv replace dflt pjs0 (i + 1) (pjs.set i npj) dupes (cleaned ++ [i]) := by
  have hpj0 : pjs0[i]? = some pj := hinv.cur_slot hpj
  have hpjeq : ∀ {pj0 : ProwJob}, pjs0[i]? = some pj0 → pj0 = pj := fun h =>
    (Option.some.inj (hpj0.symm.trans h)).symm
  have hinc : i ∉ cleaned := hinv.i_not_cleaned
  have hilen : i < pjs.length := List.getElem?_eq_some.mp hpj |>.1
  refine ⟨⟨?_, ?_, ?_, ?_, ?_, ?_⟩, ?_, ?_, ?_, ?_⟩
  · rw [List.length_set, hinv.core.len]
  · intro j hj
    rw [mem_concat_iff] at hj
    push_neg at hj
    rw [List.getElem?_set_ne (Ne.symm hj.2)]
    exact hinv.core.frame j hj.1
  · intro j hj
    rw [mem_concat_iff] at hj
    rcases hj with hj | rfl
    · exact Nat.lt_succ_of_lt (hinv.core.cleaned_lt j hj)
    · exact Nat.lt_succ_self _
  · intro j hj
    rw [mem_concat_iff] at hj
    rcases hj with hj | rfl
    · exact hinv.core.cleaned_cand j hj
    · exact ⟨pj, hpj0, hcand⟩
  · exact nodup_concat_of hinv.core.cleaned_nodup hinc
  · intro j hj
    rw [mem_concat_iff] at hj
    rcases hj with hj | rfl
    · obtain ⟨pj0, npj', h1, h2, h3⟩ := hinv.core.cleaned_stored j hj
      have hjne : i ≠ j := fun h => hinc (h ▸ hj)
      refine ⟨pj0, npj', h1, h2, ?_⟩
      rw [List.getElem?_set_ne hjne]
      exact h3
    · exact ⟨pj, npj, hpj0, hrep, List.getElem?_set_eq_of_lt npj hilen⟩
  · intro ji' r hr
    obtain ⟨h1, h2, h3⟩ := hinv.dupes_dom ji' r hr
    refine ⟨Nat.lt_succ_of_lt h1, ?_, h3⟩
    rw [mem_concat_iff]
    push_neg
    exact ⟨h2, Nat.ne_of_lt h1⟩
  · intro j pj0 hj hj0 hc
    rcases Nat.lt_succ_iff_lt_or_eq.mp hj with hj' | rfl
    · exact hinv.dupes_total j pj0 hj' hj0 hc
    · cases hpjeq hj0
      exact ⟨prev, hlk⟩
  · intro j pj0 hj hj0 hc
    rcases Nat.lt_succ_iff_lt_or_eq.mp hj with hj' | rfl
    · rcases hinv.part j pj0 hj' hj0 hc with hl | hcl
      · exact Or.inl hl
      · right
        rw [mem_concat_iff]
        exact Or.inl hcl
    · right
      rw [mem_concat_iff]
      exact Or.inr rfl
  · intro ji' r rpj hr hrpj j pj0 hj hj0 hc hk
    rcases Nat.lt_succ_iff_lt_or_eq.mp hj with hj' | rfl
    · exact hinv.max_prop ji' r rpj hr hrpj j pj0 hj' hj0 hc hk
    · cases hpjeq hj0
      have hji : jobIdentifierOf dflt pj = ji' := hk
      rw [← hji, hlk] at hr
      obtain rfl : prev = r := Option.some.inj hr
      rw [hppj0] at hrpj
      obtain rfl : rpj = ppj := (Option.some.inj hrpj).symm
      obtain ⟨hprevlt, -⟩ := hinv.dupes_dom _ _ hlk
      rcases Nat.lt_or_eq_of_le (Nat.not_lt.mp hge) with hlt' | heq'
      · exact Or.inl hlt'
      · exact Or.inr ⟨heq', Nat.le_of_lt hprevlt⟩

/-- The scan establishes `TermPost` from any state satisfying the
invariant. -/
theorem terminateGo_post {replace : String → ProwJob → Except ε ProwJob}
    {cleanup : ProwJob → Option κ} {dflt : Pull} {pjs0 : List ProwJob} :
    ∀ (k i : Nat) (pjs : List ProwJob) (dupes : List (jobIndentifier × Nat))
      (cleaned : List Nat),
      i + k = pjs0.length →
      TermInv replace dflt pjs0 i pjs dupes cleaned →
      TermPost replace dflt pjs0 (terminateGo replace cleanup dflt i k pjs dupes cleaned) := by
  intro k
  induction k with
  | zero =>
    intro i pjs dupes cleaned hik hinv
    have hi : i = pjs0.length := by omega
    subst hi
    exact ⟨fun _ => hinv, fun e he => nomatch he⟩
  | succ k ih =>
    intro i pjs dupes cleaned hik hinv
    have hilen : i < pjs.length := by
      rw [hinv.core.len]
      omega
    obtain ⟨pj, hpj⟩ : ∃ pj, pjs[i]? = some pj := ⟨pjs[i], List.getElem?_eq_getElem hilen⟩
    have hpj0 : pjs0[i]? = some pj := hinv.cur_slot hpj
    simp only [terminateGo, hpj]
    by_cases hskip : pj.status.complete = true ∨ pj.spec.type ≠ ProwJobType.presubmit
    · rw [if_pos hskip]
      exact ih (i + 1) pjs dupes cleaned (by omega) (inv_skip hinv hpj hskip)
    · rw [if_neg hskip]
      have hcand : Cand pj := cand_of_not_skip hskip
      cases hlk : lookupDupe dupes (jobIdentifierOf dflt pj) with
      | none =>
        simp only [hlk]
        exact ih (i + 1) pjs _ cleaned (by omega) (inv_first hinv hpj hcand hlk)
      | some prev =>
        obtain ⟨hprevlt, hprevnc, ppj, hppj0, hcandp, hkeyp⟩ := hinv.dupes_dom _ _ hlk
        have hprevslot : pjs[prev]? = some ppj := (hinv.core.frame prev hprevnc).trans hppj0
        simp only [hlk, hprevslot, Option.getD_some]
        by_cases hlt : ppj.status.startTime < pj.status.startTime
        · rw [if_pos hlt, if_pos hlt]
          simp only [hprevslot, Option.getD_some]
          cases hrep : replace (abortJob ppj).name (abortJob ppj) with
          | error e =>
            simp only [hrep]
            refine ⟨fun h => (nomatch h), fun e' he' => ?_⟩
            obtain rfl : e = e' := Option.some.inj he'
            refine ⟨cleaned, prev, i, ppj, rfl, hprevnc, hinv.core, hppj0, hcandp, hrep, ?_⟩
            intro ji' r hr
            rw [lookupDupe_cons] at hr
            by_cases hk : jobIdentifierOf dflt pj = ji'
            · rw [if_pos hk] at hr
              obtain rfl : i = r := Option.some.inj hr
              exact ⟨pj, hpj0, hcand, hk⟩
            · rw [if_neg hk] at hr
              obtain ⟨-, -, h3⟩ := hinv.dupes_dom ji' r hr
              exact h3
          | ok npj =>
            simp only [hrep]
            exact ih (i + 1) _ _ _ (by omega)
              (inv_cancel_prev hinv hpj hcand hlk hppj0 hlt hrep)
        · rw [if_neg hlt, if_neg hlt]
          simp only [hpj, Option.getD_some]
          cases hrep : replace (abortJob pj).name (abortJob pj) with
          | error e =>
            simp only [hrep]
            refine ⟨fun h => (nomatch h), fun e' he' => ?_⟩
            obtain rfl : e = e' := Option.some.inj he'
            refine ⟨cleaned, i, i, pj, rfl, hinv.i_not_cleaned, hinv.core, hpj0, hcand, hrep, ?_⟩
            intro ji' r hr
            obtain ⟨-, -, h3⟩ := hinv.dupes_dom ji' r hr
            exact h3
          | ok npj =>
            simp only [hrep]
            exact ih (i + 1) _ _ _ (by omega)
              (inv_cancel_cur hinv hpj hcand hlk hppj0 hlt hrep)

/-- The invariant holds trivially at the start of the scan. -/
theorem inv_init (replace : String → ProwJob → Except ε ProwJob) (dflt : Pull)
    (pjs0 : List ProwJob) : TermInv replace dflt pjs0 0 pjs0 [] [] := by
  refine ⟨⟨rfl, fun j _ => rfl, ?_, ?_, List.nodup_nil, ?_⟩, ?_, ?_, ?_, ?_⟩
  · intro j hj
    cases hj
  · intro j hj
    cases hj
  · intro j hj
    cases hj
  · intro ji r hr
    cases hr
  · intro j pj0 hj _ _
    omega
  · intro j pj0 hj _ _
    omega
  · intro ji r rpj hr
    cases hr

/-- `TermPost` holds of every run of `TerminateOlderPresubmitJobs`. -/
theorem TerminateOlderPresubmitJobs_post (replace : String → ProwJob → Except ε ProwJob)
    (cleanup : ProwJob → Option κ) (dflt : Pull) (pjs0 : List ProwJob) :
    TermPost replace dflt pjs0 (TerminateOlderPresubmitJobs replace cleanup dflt pjs0) :=
  terminateGo_post pjs0.length 0 pjs0 [] [] (by omega) (inv_init replace dflt pjs0)

end TerminationInvariant

/-! ## Claim theorems for the termination engine -/

/-- Claim C5: on a successful run, the slot of every job selected for
cancellation holds exactly the record returned by the persistence
collaborator's replace-by-identity call for that job (which was handed the
aborted version of the original record), and every slot whose job was not
selected for cancellation is unchanged from its value at call start. -/
theorem terminate_slot_frame {ε κ : Type} (replace : String → ProwJob → Except ε ProwJob)
    (cleanup : ProwJob → Option κ) (dflt : Pull) (pjs : List ProwJob)
    (hok : (TerminateOlderPresubmitJobs replace cleanup dflt pjs).err = none) :
    (∀ j ∈ (TerminateOlderPresubmitJobs replace cleanup dflt pjs).cleaned,
      ∃ pj0 npj, pjs[j]? = some pj0 ∧
        replace (abortJob pj0).name (abortJob pj0) = Except.ok npj ∧
        (TerminateOlderPresubmitJobs replace cleanup dflt pjs).pjs[j]? = some npj) ∧
    (∀ j : Nat, j ∉ (TerminateOlderPresubmitJobs replace cleanup dflt pjs).cleaned →
      (TerminateOlderPresubmitJobs replace cleanup dflt pjs).pjs[j]? = pjs[j]?) := by
  have h := (TerminateOlderPresubmitJobs_post replace cleanup dflt pjs).on_ok hok
  exact ⟨h.core.cleaned_stored, h.core.frame⟩

/-- Claim C3: a job that is already complete, or whose kind is not
presubmit, is never cancelled (its index never reaches the cleanup
callback), its slot is left unchanged (so it is never aborted or
persisted), and it is never entered into the duplicate-detection mapping —
regardless of identity-key collisions and of whether the run succeeds. -/
theorem terminate_non_interference {ε κ : Type} (replace : String → ProwJob → Except ε ProwJob)
    (cleanup : ProwJob → Option κ) (dflt : Pull) (pjs : List ProwJob)
    (j : Nat) (pj : ProwJob) (hpj : pjs[j]? = some pj)
    (hskip : pj.status.complete = true ∨ pj.spec.type ≠ ProwJobType.presubmit) :
    j ∉ (TerminateOlderPresubmitJobs replace cleanup dflt pjs).cleaned ∧
    (TerminateOlderPresubmitJobs replace cleanup dflt pjs).pjs[j]? = some pj ∧
    (∀ ji r, lookupDupe (TerminateOlderPresubmitJobs replace cleanup dflt pjs).dupes ji =
      some r → r ≠ j) := by
  have hpost := TerminateOlderPresubmitJobs_post replace cleanup dflt pjs
  have hnc : ¬ Cand pj := not_cand_of_skip hskip
  cases herr : (TerminateOlderPresubmitJobs replace cleanup dflt pjs).err with
  | none =>
    have h := hpost.on_ok herr
    have hjnc : j ∉ (TerminateOlderPresubmitJobs replace cleanup dflt pjs).cleaned := by
      intro hj
      obtain ⟨pj0, h1, h2⟩ := h.core.cleaned_cand j hj
      rw [hpj] at h1
      obtain rfl : pj = pj0 := Option.some.inj h1
      exact hnc h2
    refine ⟨hjnc, (h.core.frame j hjnc).trans hpj, ?_⟩
    intro ji r hr hrj
    subst hrj
    obtain ⟨-, -, pj0, h1, h2, -⟩ := h.dupes_dom ji r hr
    rw [hpj] at h1
    obtain rfl : pj = pj0 := Option.some.inj h1
    exact hnc h2
  | some e =>
    obtain ⟨cl0, c, i', cpj, hclean, hcnin, hcore, hc0, hccand, -, hweak⟩ := hpost.on_err e herr
    have hjn0 : j ∉ cl0 := by
      intro hj
      obtain ⟨pj0, h1, h2⟩ := hcore.cleaned_cand j hj
      rw [hpj] at h1
      obtain rfl : pj = pj0 := Option.some.inj h1
      exact hnc h2
    have hjne_c : j ≠ c := by
      intro hj
      subst hj
      rw [hpj] at hc0
      obtain rfl : pj = cpj := Option.some.inj hc0
      exact hnc hccand
    refine ⟨?_, (hcore.frame j hjn0).trans hpj, ?_⟩
    · rw [hclean, mem_concat_iff]
      push_neg
      exact ⟨hjn0, hjne_c⟩
    · intro ji r hr hrj
      subst hrj
      obtain ⟨pj0, h1, h2, -⟩ := hweak ji r hr
      rw [hpj] at h1
      obtain rfl : pj = pj0 := Option.some.inj h1
      exact hnc h2

/-- Claim C2: if the persistence replace call fails on the k-th job
selected for cancellation, the run returns exactly that error; the first
k−1 cancelled jobs have been aborted and persisted (their slots hold the
records returned by the successful replace calls), while the k-th
candidate and every job not yet reached keep their original slots. -/
theorem terminate_fail_fast {ε κ : Type} (replace : String → ProwJob → Except ε ProwJob)
    (cleanup : ProwJob → Option κ) (dflt : Pull) (pjs : List ProwJob) (e : ε)
    (herr : (TerminateOlderPresubmitJobs replace cleanup dflt pjs).err = some e) :
    ∃ cleaned0 c cpj,
      (TerminateOlderPresubmitJobs replace cleanup dflt pjs).cleaned = cleaned0 ++ [c] ∧
      c ∉ cleaned0 ∧
      pjs[c]? = some cpj ∧
      replace (abortJob cpj).name (abortJob cpj) = Except.error e ∧
      (TerminateOlderPresubmitJobs replace cleanup dflt pjs).pjs[c]? = some cpj ∧
      (∀ j : Nat, j ∉ cleaned0 →
        (TerminateOlderPresubmitJobs replace cleanup dflt pjs).pjs[j]? = pjs[j]?) ∧
      (∀ j ∈ cleaned0, ∃ pj0 npj, pjs[j]? = some pj0 ∧
        replace (abortJob pj0).name (abortJob pj0) = Except.ok npj ∧
        (TerminateOlderPresubmitJobs replace cleanup dflt pjs).pjs[j]? = some npj) := by
  obtain ⟨cl0, c, i', cpj, hclean, hcnin, hcore, hc0, -, hrep, -⟩ :=
    (TerminateOlderPresubmitJobs_post replace cleanup dflt pjs).on_err e herr
  exact ⟨cl0, c, cpj, hclean, hcnin, hc0, hrep,
    (hcore.frame c hcnin).trans hc0, hcore.frame, hcore.cleaned_stored⟩

/-- The scan's outcome is entirely independent of the cleanup callback:
its result is bound and then only logged in the source, never branched
on. -/
theorem terminateGo_cleanup_indep {ε κ₁ κ₂ : Type}
    (replace : String → ProwJob → Except ε ProwJob)
    (c1 : ProwJob → Option κ₁) (c2 : ProwJob → Option κ₂) (dflt : Pull) :
    ∀ (k i : Nat) (pjs : List ProwJob) (dupes : List (jobIndentifier × Nat))
      (cleaned : List Nat),
      terminateGo replace c1 dflt i k pjs dupes cleaned =
        terminateGo replace c2 dflt i k pjs dupes cleaned := by
  intro k
  induction k with
  | zero =>
    intro i pjs dupes cleaned
    rfl
  | succ k ih =>
    intro i pjs dupes cleaned
    cases hpj : pjs[i]? with
    | none => simp only [terminateGo, hpj]
    | some pj =>
      simp only [terminateGo, hpj]
      by_cases hskip : pj.status.complete = true ∨ pj.spec.type ≠ ProwJobType.presubmit
      · simp only [if_pos hskip]
        exact ih (i + 1) pjs dupes cleaned
      · simp only [if_neg hskip]
        cases hlk : lookupDupe dupes (jobIdentifierOf dflt pj) with
        | none =>
          simp only [hlk]
          exact ih (i + 1) pjs _ cleaned
        | some prev =>
          simp only [hlk]
          by_cases hlt : (pjs[prev]?.getD pj).status.startTime < pj.status.startTime
          · simp only [if_pos hlt]
            cases hrep : replace (abortJob (pjs[prev]?.getD pj)).name
                (abortJob (pjs[prev]?.getD pj)) with
            | error e => simp only [hrep]
            | ok npj =>
              simp only [hrep]
              exact ih (i + 1) _ _ _
          · simp only [if_neg hlt]
            cases hrep : replace (abortJob (pjs[i]?.getD pj)).name
                (abortJob (pjs[i]?.getD pj)) with
            | error e => simp only [hrep]
            | ok npj =>
              simp only [hrep]
              exact ih (i + 1) _ _ _

/-- Claim C4: a cleanup failure is non-fatal and invisible in the outcome:
for any two cleanup callbacks — in particular one that always fails and
one that never does — the run produces the identical outcome (same final
sequence, so cancelled jobs are still marked complete, aborted and
persisted; same cancellation order, so the scan continues past the
failure; same returned error, which can only originate from the
persistence collaborator). -/
theorem terminate_cleanup_error_nonfatal {ε κ₁ κ₂ : Type}
    (replace : String → ProwJob → Except ε ProwJob)
    (c1 : ProwJob → Option κ₁) (c2 : ProwJob → Option κ₂) (dflt : Pull)
    (pjs : List ProwJob) :
    TerminateOlderPresubmitJobs replace c1 dflt pjs =
      TerminateOlderPresubmitJobs replace c2 dflt pjs :=
  terminateGo_cleanup_indep replace c1 c2 dflt pjs.length 0 pjs [] []

/-- The identity key does not depend on the default pull when the job
carries at least one pull-request ref: the key reads the first element of
the pull list. -/
theorem jobIdentifierOf_indep {pj : ProwJob} (d1 d2 : Pull)
    (h : pj.spec.refs.pulls ≠ []) : jobIdentifierOf d1 pj = jobIdentifierOf d2 pj := by
  unfold jobIdentifierOf
  cases hp : pj.spec.refs.pulls with
  | nil => exact absurd hp h
  | cons a l => simp [hp]

/-- The scan's outcome does not depend on the default pull used by the
total embedding of `Pulls[0]`, provided every incomplete presubmit job of
the original sequence carries at least one pull-request ref.  The two
side conditions are the invariants that make the induction go through:
indices in the duplicate map are below the scan position, and the
unscanned suffix is still the original sequence. -/
theorem terminateGo_dflt_indep {ε κ : Type}
    (replace : String → ProwJob → Except ε ProwJob) (cleanup : ProwJob → Option κ)
    (d1 d2 : Pull) (pjs0 : List ProwJob)
    (hpulls : ∀ pj ∈ pjs0, Cand pj → pj.spec.refs.pulls ≠ []) :
    ∀ (k i : Nat) (pjs : List ProwJob) (dupes : List (jobIndentifier × Nat))
      (cleaned : List Nat),
      (∀ ji r, lookupDupe dupes ji = some r → r < i) →
      (∀ j : Nat, i ≤ j → pjs[j]? = pjs0[j]?) →
      terminateGo replace cleanup d1 i k pjs dupes cleaned =
        terminateGo replace cleanup d2 i k pjs dupes cleaned := by
  intro k
  induction k with
  | zero =>
    intro i pjs dupes cleaned _ _
    rfl
  | succ k ih =>
    intro i pjs dupes cleaned hdub hsuf
    cases hpj : pjs[i]? with
    | none => simp only [terminateGo, hpj]
    | some pj =>
      simp only [terminateGo, hpj]
      by_cases hskip : pj.status.complete = true ∨ pj.spec.type ≠ ProwJobType.presubmit
      · simp only [if_pos hskip]
        exact ih (i + 1) pjs dupes cleaned
          (fun ji r hr => Nat.lt_succ_of_lt (hdub ji r hr))
          (fun j hj => hsuf j (by omega))
      · simp only [if_neg hskip]
        have hcand : Cand pj := cand_of_not_skip hskip
        have hpjmem : pj ∈ pjs0 :=
          List.getElem?_mem ((hsuf i (Nat.le_refl i)).symm.trans hpj)
        have hkey : jobIdentifierOf d1 pj = jobIdentifierOf d2 pj :=
          jobIdentifierOf_indep d1 d2 (hpulls pj hpjmem hcand)
        rw [← hkey]
        cases hlk : lookupDupe dupes (jobIdentifierOf d1 pj) with
        | none =>
          simp only [hlk]
          refine ih (i + 1) pjs _ cleaned ?_ (fun j hj => hsuf j (by omega))
          intro ji r hr
          rw [lookupDupe_cons] at hr
          by_cases hk : jobIdentifierOf d1 pj = ji
          · rw [if_pos hk] at hr
            obtain rfl : i = r := Option.some.inj hr
            omega
          · rw [if_neg hk] at hr
            exact Nat.lt_succ_of_lt (hdub ji r hr)
        | some prev =>
          simp only [hlk]
          have hprevlt : prev < i := hdub _ _ hlk
          by_cases hlt : (pjs[prev]?.getD pj).status.startTime < pj.status.startTime
          · simp only [if_pos hlt]
            cases hrep : replace (abortJob (pjs[prev]?.getD pj)).name
                (abortJob (pjs[prev]?.getD pj)) with
            | error e => simp only [hrep]
            | ok npj =>
              simp only [hrep]
              refine ih (i + 1) _ _ _ ?_ ?_
              · intro ji r hr
                rw [lookupDupe_cons] at hr
                by_cases hk : jobIdentifierOf d1 pj = ji
                · rw [if_pos hk] at hr
                  obtain rfl : i = r := Option.some.inj hr
                  omega
                · rw [if_neg hk] at hr
                  exact Nat.lt_succ_of_lt (hdub ji r hr)
              · intro j hj
                rw [List.getElem?_set_ne (by omega : prev ≠ j)]
                exact hsuf j (by omega)
          · simp only [if_neg hlt]
            cases hrep : replace (abortJob (pjs[i]?.getD pj)).name
                (abortJob (pjs[i]?.getD pj)) with
            | error e => simp only [hrep]
            | ok npj =>
              simp only [hrep]
              refine ih (i + 1) _ _ _
                (fun ji r hr => Nat.lt_succ_of_lt (hdub ji r hr)) ?_
              intro j hj
              rw [List.getElem?_set_ne (by omega : i ≠ j)]
              exact hsuf j (by omega)

/-- Claim C9: the engine addresses each incomplete presubmit job by the
number of the first element of its pull-request ref list; under the
precondition that every such job carries at least one pull-request ref,
the out-of-range branch of the indexing is unreachable: the run's outcome
is entirely independent of the default pull supplied to the total
embedding. -/
theorem terminate_first_pull_safe {ε κ : Type}
    (replace : String → ProwJob → Except ε ProwJob) (cleanup : ProwJob → Option κ)
    (pjs : List ProwJob) (d1 d2 : Pull)
    (hpulls : ∀ pj ∈ pjs, Cand pj → pj.spec.refs.pulls ≠ []) :
    TerminateOlderPresubmitJobs replace cleanup d1 pjs =
      TerminateOlderPresubmitJobs replace cleanup d2 pjs :=
  terminateGo_dflt_indep replace cleanup d1 d2 pjs hpulls pjs.length 0 pjs [] []
    (fun _ _ hr => nomatch hr) (fun _ _ => rfl)

/-- Rewrite a job's lifecycle state through `f`, leaving every other
attribute untouched. -/
def relabelJob (f : ProwJobState → ProwJobState) (pj : ProwJob) : ProwJob :=
  { pj with status.state := f pj.status.state }

theorem abortJob_relabelJob (f : ProwJobState → ProwJobState) (pj : ProwJob) :
    abortJob (relabelJob f pj) = abortJob pj := rfl

/-- Setting the same element in two pointwise-related sequences preserves
the relation. -/
theorem relabel_rel_set {f : ProwJobState → ProwJobState} {pjsA pjsB : List ProwJob}
    (hlen : pjsA.length = pjsB.length)
    (hrel : ∀ j : Nat, pjsA[j]? = (pjsB[j]?).map (relabelJob f) ∨ pjsA[j]? = pjsB[j]?)
    (c : Nat) (npj : ProwJob) :
    ∀ j : Nat, (pjsA.set c npj)[j]? = ((pjsB.set c npj)[j]?).map (relabelJob f) ∨
      (pjsA.set c npj)[j]? = (pjsB.set c npj)[j]? := by
  intro j
  by_cases hj : c = j
  · subst hj
    by_cases hc : c < pjsA.length
    · right
      rw [List.getElem?_set_eq_of_lt npj hc, List.getElem?_set_eq_of_lt npj (hlen ▸ hc)]
    · right
      have h1 : (pjsA.set c npj)[c]? = none := List.getElem?_eq_none_iff.mpr (by
        rw [List.length_set]
        omega)
      have h2 : (pjsB.set c npj)[c]? = none := List.getElem?_eq_none_iff.mpr (by
        rw [List.length_set]
        omega)
      rw [h1, h2]
  · rw [List.getElem?_set_ne hj, List.getElem?_set_ne hj]
    exact hrel j

/-- The scan never branches on a job's lifecycle state: running it on a
sequence whose states have been rewritten pointwise (with already-updated
slots allowed to coincide) yields the same cancellation order and the
same error. -/
theorem terminateGo_relabel {ε κ : Type}
    (replace : String → ProwJob → Except ε ProwJob) (cleanup : ProwJob → Option κ)
    (dflt : Pull) (f : ProwJobState → ProwJobState) :
    ∀ (k i : Nat) (pjsA pjsB : List ProwJob) (dupes : List (jobIndentifier × Nat))
      (cleaned : List Nat),
      pjsA.length = pjsB.length →
      (∀ j : Nat, pjsA[j]? = (pjsB[j]?).map (relabelJob f) ∨ pjsA[j]? = pjsB[j]?) →
      (terminateGo replace cleanup dflt i k pjsA dupes cleaned).cleaned =
        (terminateGo replace cleanup dflt i k pjsB dupes cleaned).cleaned ∧
      (terminateGo replace cleanup dflt i k pjsA dupes cleaned).err =
        (terminateGo replace cleanup dflt i k pjsB dupes cleaned).err := by
  intro k
  induction k with
  | zero =>
    intro i pjsA pjsB dupes cleaned _ _
    exact ⟨rfl, rfl⟩
  | succ k ih =>
    intro i pjsA pjsB dupes cleaned hlen hrel
    cases hpjB : pjsB[i]? with
    | none =>
      have hpjA : pjsA[i]? = none := by
        rw [List.getElem?_eq_none_iff] at hpjB ⊢
        omega
      simp [terminateGo, hpjA, hpjB]
    | some pjB =>
      obtain ⟨pjA, hpjA, hAB⟩ : ∃ pjA, pjsA[i]? = some pjA ∧
          (pjA = relabelJob f pjB ∨ pjA = pjB) := by
        rcases hrel i with h | h
        · rw [hpjB] at h
          exact ⟨relabelJob f pjB, h, Or.inl rfl⟩
        · rw [hpjB] at h
          exact ⟨pjB, h, Or.inr rfl⟩
      have hco : pjA.status.complete = pjB.status.complete := by
        rcases hAB with rfl | rfl <;> rfl
      have hty : pjA.spec.type = pjB.spec.type := by
        rcases hAB with rfl | rfl <;> rfl
      have hke : jobIdentifierOf dflt pjA = jobIdentifierOf dflt pjB := by
        rcases hAB with rfl | rfl <;> rfl
      have hst : pjA.status.startTime = pjB.status.startTime := by
        rcases hAB with rfl | rfl <;> rfl
      have hab : abortJob pjA = abortJob pjB := by
        rcases hAB with rfl | rfl <;> rfl
      simp only [terminateGo, hpjA, hpjB]
      rw [hco, hty]
      by_cases hskip : pjB.status.complete = true ∨ pjB.spec.type ≠ ProwJobType.presubmit
      · simp only [if_pos hskip]
        exact ih (i + 1) pjsA pjsB dupes cleaned hlen hrel
      · simp only [if_neg hskip]
        rw [hke]
        cases hlk : lookupDupe dupes (jobIdentifierOf dflt pjB) with
        | none =>
          simp only [hlk]
          exact ih (i + 1) pjsA pjsB _ cleaned hlen hrel
        | some prev =>
          simp only [hlk]
          have hpair : (pjsA[prev]?.getD pjA).status.startTime =
              (pjsB[prev]?.getD pjB).status.startTime ∧
              abortJob (pjsA[prev]?.getD pjA) = abortJob (pjsB[prev]?.getD pjB) := by
            cases hq : pjsB[prev]? with
            | none =>
              rcases hrel prev with hp | hp
              · rw [hq] at hp
                simp only [Option.map_none'] at hp
                rw [hp]
                exact ⟨hst, hab⟩
              · rw [hq] at hp
                rw [hp]
                exact ⟨hst, hab⟩
            | some q =>
              rcases hrel prev with hp | hp
              · rw [hq] at hp
                simp only [Option.map_some'] at hp
                rw [hp]
                exact ⟨rfl, abortJob_relabelJob f q⟩
              · rw [hq] at hp
                rw [hp]
                exact ⟨rfl, rfl⟩
          rw [hpair.1, hst]
          by_cases hlt : (pjsB[prev]?.getD pjB).status.startTime < pjB.status.startTime
          · simp only [if_pos hlt]
            rw [hpair.2]
            cases hrep : replace (abortJob (pjsB[prev]?.getD pjB)).name
                (abortJob (pjsB[prev]?.getD pjB)) with
            | error e =>
              simp [hrep]
            | ok npj =>
              simp only [hrep]
              exact ih (i + 1) _ _ _ _
                (by rw [List.length_set, List.length_set, hlen])
                (relabel_rel_set hlen hrel prev npj)
          · simp only [if_neg hlt]
            simp only [hpjA, hpjB, Option.getD_some]
            rw [hab]
            cases hrep : replace (abortJob pjB).name (abortJob pjB) with
            | error e =>
              simp [hrep]
            | ok npj =>
              simp only [hrep]
              exact ih (i + 1) _ _ _ _
                (by rw [List.length_set, List.length_set, hlen])
                (relabel_rel_set hlen hrel i npj)

/-- Claim C10: the record handed to the persistence collaborator for a
cancelled job is the record read from the sequence changed in exactly two
respects — the completion flag is set and the lifecycle state becomes
aborted — while name, spec (job name, kind, target identity) and start
time are untouched; and the prior lifecycle state influences no control
flow: rewriting every input job's state through an arbitrary function
leaves the cancellation order and the returned error unchanged. -/
theorem terminate_abort_minimal_change {ε κ : Type}
    (replace : String → ProwJob → Except ε ProwJob) (cleanup : ProwJob → Option κ)
    (dflt : Pull) (pjs : List ProwJob) (f : ProwJobState → ProwJobState) :
    (∀ pj : ProwJob, (abortJob pj).name = pj.name ∧ (abortJob pj).spec = pj.spec ∧
      (abortJob pj).status.startTime = pj.status.startTime ∧
      (abortJob pj).status.complete = true ∧
      (abortJob pj).status.state = ProwJobState.aborted) ∧
    (TerminateOlderPresubmitJobs replace cleanup dflt (pjs.map (relabelJob f))).cleaned =
      (TerminateOlderPresubmitJobs replace cleanup dflt pjs).cleaned ∧
    (TerminateOlderPresubmitJobs replace cleanup dflt (pjs.map (relabelJob f))).err =
      (TerminateOlderPresubmitJobs replace cleanup dflt pjs).err := by
  refine ⟨fun pj => ⟨rfl, rfl, rfl, rfl, rfl⟩, ?_⟩
  have hlen : (pjs.map (relabelJob f)).length = pjs.length := List.length_map ..
  have h := terminateGo_relabel replace cleanup dflt f pjs.length 0
    (pjs.map (relabelJob f)) pjs [] [] hlen
    (fun j => Or.inl (List.getElem?_map ..))
  simp only [TerminateOlderPresubmitJobs, hlen]
  exact h

/-- Claim C1, amended: after a successful run, among the incomplete
presubmit jobs sharing an identity key exactly one record is not aborted:
the one with the maximum start time in the group, with ties between equal
start times broken toward the **earlier** position in the input sequence
(the code cancels the newly seen record when start times are equal, since
the comparison is strict).  The retained record is left untouched and
never reaches the cleanup callback; every other duplicate in the group is
replaced in place by its aborted version and has cleanup invoked exactly
once.  Hypotheses: the persistence collaborator returns the stored record
on success, and no incomplete presubmit job is already in the aborted
state at call start. -/
theorem terminate_dedup_retains_first_max {ε κ : Type}
    (replace : String → ProwJob → Except ε ProwJob)
    (cleanup : ProwJob → Option κ) (dflt : Pull) (pjs : List ProwJob)
    (hrep : ∀ (s : String) (x r : ProwJob), replace s x = Except.ok r → r = x)
    (hnab : ∀ pj ∈ pjs, Cand pj → pj.status.state ≠ ProwJobState.aborted)
    (hok : (TerminateOlderPresubmitJobs replace cleanup dflt pjs).err = none)
    (k' : jobIndentifier) (j0 : Nat) (pj0 : ProwJob)
    (hj0 : pjs[j0]? = some pj0) (hc0 : Cand pj0) (hk0 : jobIdentifierOf dflt pj0 = k') :
    ∃ r rpj, pjs[r]? = some rpj ∧ Cand rpj ∧ jobIdentifierOf dflt rpj = k' ∧
      (TerminateOlderPresubmitJobs replace cleanup dflt pjs).pjs[r]? = some rpj ∧
      rpj.status.state ≠ ProwJobState.aborted ∧
      r ∉ (TerminateOlderPresubmitJobs replace cleanup dflt pjs).cleaned ∧
      (∀ j pj', pjs[j]? = some pj' → Cand pj' → jobIdentifierOf dflt pj' = k' →
        pj'.status.startTime < rpj.status.startTime ∨
          (pj'.status.startTime = rpj.status.startTime ∧ r ≤ j)) ∧
      (∀ j pj', pjs[j]? = some pj' → Cand pj' → jobIdentifierOf dflt pj' = k' → j ≠ r →
        (TerminateOlderPresubmitJobs replace cleanup dflt pjs).cleaned.count j = 1 ∧
        (TerminateOlderPresubmitJobs replace cleanup dflt pjs).pjs[j]? =
          some (abortJob pj')) := by
  have h := (TerminateOlderPresubmitJobs_post replace cleanup dflt pjs).on_ok hok
  have hj0len : j0 < pjs.length := List.getElem?_eq_some.mp hj0 |>.1
  obtain ⟨r, hr⟩ := h.dupes_total j0 pj0 hj0len hj0 hc0
  rw [hk0] at hr
  obtain ⟨-, hrnc, rpj, hrpj, hrcand, hrkey⟩ := h.dupes_dom k' r hr
  refine ⟨r, rpj, hrpj, hrcand, hrkey, (h.core.frame r hrnc).trans hrpj, ?_, hrnc, ?_, ?_⟩
  · exact hnab rpj (List.getElem?_mem hrpj) hrcand
  · intro j pj' hj' hcand' hkey'
    have hjlen : j < pjs.length := List.getElem?_eq_some.mp hj' |>.1
    exact h.max_prop k' r rpj hr hrpj j pj' hjlen hj' hcand' hkey'
  · intro j pj' hj' hcand' hkey' hjr
    have hjlen : j < pjs.length := List.getElem?_eq_some.mp hj' |>.1
    have hmem : j ∈ (TerminateOlderPresubmitJobs replace cleanup dflt pjs).cleaned := by
      rcases h.part j pj' hjlen hj' hcand' with hl | hcl
      · rw [hkey', hr] at hl
        exact absurd (Option.some.inj hl).symm hjr
      · exact hcl
    refine ⟨List.count_eq_one_of_mem h.core.cleaned_nodup hmem, ?_⟩
    obtain ⟨pj1, npj, h1, h2, h3⟩ := h.core.cleaned_stored j hmem
    rw [hj'] at h1
    obtain rfl : pj' = pj1 := Option.some.inj h1
    rw [h3, hrep _ _ _ h2]


/-! ## Concrete fixtures -/

/-- A persistence collaborator that stores and returns the given record. -/
def replaceId : String → ProwJob → Except Unit ProwJob := fun _ pj => Except.ok pj

/-- A persistence collaborator that always fails. -/
def replaceFail : String → ProwJob → Except Unit ProwJob := fun _ _ => Except.error ()

/-- A cleanup callback that always succeeds. -/
def cleanupNone : ProwJob → Option Unit := fun _ => none

/-- A cleanup callback that always fails. -/
def cleanupFail : ProwJob → Option Unit := fun _ => some ()

def pull1 : Pull := ⟨1⟩

/-- An incomplete presubmit job, start time 5. -/
def tieJobA : ProwJob :=
  { name := "a"
    spec := { type := ProwJobType.presubmit, job := "job"
              refs := { org := "org", repo := "repo", pulls := [pull1] } }
    status := { startTime := 5, complete := false, state := ProwJobState.pending } }

/-- A second incomplete presubmit job with the same identity key and the
same start time 5. -/
def tieJobB : ProwJob :=
  { name := "b"
    spec := { type := ProwJobType.presubmit, job := "job"
              refs := { org := "org", repo := "repo", pulls := [pull1] } }
    status := { startTime := 5, complete := false, state := ProwJobState.pending } }

/-- A third job with the same identity key and a later start time 7. -/
def newerJob : ProwJob :=
  { name := "c"
    spec := { type := ProwJobType.presubmit, job := "job"
              refs := { org := "org", repo := "repo", pulls := [pull1] } }
    status := { startTime := 7, complete := false, state := ProwJobState.pending } }

/-- A job that is already complete (same identity key). -/
def doneJob : ProwJob :=
  { name := "d"
    spec := { type := ProwJobType.presubmit, job := "job"
              refs := { org := "org", repo := "repo", pulls := [pull1] } }
    status := { startTime := 5, complete := true, state := ProwJobState.success } }

/-- Counterexample to claim C1 as stated: two incomplete presubmit jobs with the same
identity key and exactly equal start times: the run cancels the record at
the **later** input position (index 1) and retains the earlier one, in
direct contradiction with the claim that ties are broken toward the later
position (which would require index 0 to be the aborted record and index
1 to survive). -/
theorem terminate_tie_break_counterexample :
    tieJobA.status.startTime = tieJobB.status.startTime ∧
    jobIdentifierOf pull1 tieJobA = jobIdentifierOf pull1 tieJobB ∧
    Cand tieJobA ∧ Cand tieJobB ∧
    (TerminateOlderPresubmitJobs replaceId cleanupNone pull1 [tieJobA, tieJobB]).err = none ∧
    (TerminateOlderPresubmitJobs replaceId cleanupNone pull1 [tieJobA, tieJobB]).cleaned = [1] ∧
    (TerminateOlderPresubmitJobs replaceId cleanupNone pull1 [tieJobA, tieJobB]).pjs =
      [tieJobA, abortJob tieJobB] ∧
    (abortJob tieJobB).status.state = ProwJobState.aborted ∧
    tieJobA.status.state ≠ ProwJobState.aborted := by
  decide

/-! ## Claim theorems for the Skip Resolver -/

/-- Characterization of eligibility: optional, not retriggered by the
same comment, and a currently posted context in state failure or
pending. -/
theorem skipEligible_true_iff (body : String) (existing : List Status) (p : Presubmit) :
    skipEligible body existing p = true ↔
      p.optional = true ∧ p.triggerMatches body = false ∧
      ∃ st, existing.find? (fun s => s.context == p.context) = some st ∧
        (st.state = StatusState.failure ∨ st.state = StatusState.pending) := by
  unfold skipEligible
  cases hf : existing.find? (fun s => s.context == p.context) with
  | none => simp [hf]
  | some st =>
    simp only [hf, Bool.and_eq_true, Bool.or_eq_true, beq_iff_eq, Bool.not_eq_true']
    constructor
    · rintro ⟨⟨ho, ht⟩, hs⟩
      exact ⟨ho, ht, st, rfl, hs⟩
    · rintro ⟨ho, ht, st', hst', hs⟩
      obtain rfl : st = st' := Option.some.inj hst'
      exact ⟨⟨ho, ht⟩, hs⟩

/-- Claim C6: a required (non-optional) presubmit definition's context is
never written to by the Skip Resolver, whatever the posted statuses and
the comment body (contexts of the supplied definitions are pairwise
distinct, per the data model's one-context-per-definition key). -/
theorem skip_required_immunity (e : GenericCommentEvent) (ps : List Presubmit)
    (existing : List Status) (p : Presubmit) (hp : p ∈ ps)
    (hreq : p.optional = false)
    (hnodup : (ps.map Presubmit.context).Nodup) :
    ∀ w ∈ ResolveSkips e ps existing, (w.2).context ≠ p.context := by
  intro w hw
  unfold ResolveSkips at hw
  split at hw
  · cases hw
  · obtain ⟨q, hq, rfl⟩ := List.mem_map.mp hw
    obtain ⟨hqm, hqel⟩ := List.mem_filter.mp hq
    intro hctx
    have hqp : q = p := List.inj_on_of_nodup_map hnodup hqm hp hctx
    subst hqp
    simp [skipEligible, hreq] at hqel

/-- Claim C8: an optional definition whose own trigger pattern matches the
comment body is excluded: no write is issued for its context, leaving its
posted state unchanged, even when that context is currently failing or
pending. -/
theorem skip_retrigger_exclusion (e : GenericCommentEvent) (ps : List Presubmit)
    (existing : List Status) (p : Presubmit) (hp : p ∈ ps)
    (_hopt : p.optional = true)
    (_hfail : ∃ st, existing.find? (fun s => s.context == p.context) = some st ∧
      (st.state = StatusState.failure ∨ st.state = StatusState.pending))
    (htrig : p.triggerMatches e.body = true)
    (hnodup : (ps.map Presubmit.context).Nodup) :
    ∀ w ∈ ResolveSkips e ps existing, (w.2).context ≠ p.context := by
  intro w hw
  unfold ResolveSkips at hw
  split at hw
  · cases hw
  · obtain ⟨q, hq, rfl⟩ := List.mem_map.mp hw
    obtain ⟨hqm, hqel⟩ := List.mem_filter.mp hq
    intro hctx
    have hqp : q = p := List.inj_on_of_nodup_map hnodup hqm hp hctx
    subst hqp
    simp [skipEligible, htrig] at hqel

/-- Claim C7: on a gated event (pull-request comment, open issue, created
action), an optional definition's context receives a status write iff a
status with its context name is currently posted in state failure or
pending and the definition's own trigger does not match the comment body;
the write is exactly success/"Skipped" against the event's head commit,
and at most one write is issued for that context. -/
theorem skip_optional_iff (e : GenericCommentEvent) (ps : List Presubmit)
    (existing : List Status) (p : Presubmit)
    (hgate : e.isPR = true ∧ e.issueState = "open" ∧
      e.action = GenericCommentAction.created)
    (hp : p ∈ ps) (hopt : p.optional = true)
    (hnodup : (ps.map Presubmit.context).Nodup) :
    ((∃ w ∈ ResolveSkips e ps existing, (w.2).context = p.context) ↔
      ((∃ st, existing.find? (fun s => s.context == p.context) = some st ∧
        (st.state = StatusState.failure ∨ st.state = StatusState.pending)) ∧
        p.triggerMatches e.body = false)) ∧
    (∀ w ∈ ResolveSkips e ps existing, (w.2).context = p.context →
      w = (e.headSHA, ⟨p.context, StatusState.success, "Skipped"⟩)) ∧
    (ResolveSkips e ps existing).Nodup ∧
    (∀ w ∈ ResolveSkips e ps existing, w.1 = e.headSHA) := by
  have hgate' : ¬(e.isPR = false ∨ e.issueState ≠ "open" ∨
      e.action ≠ GenericCommentAction.created) := by
    simp [hgate.1, hgate.2.1, hgate.2.2]
  have hres : ResolveSkips e ps existing =
      (ps.filter (skipEligible e.body existing)).map
        (fun q => (e.headSHA,
          { context := q.context, state := StatusState.success,
            description := "Skipped" })) := by
    unfold ResolveSkips
    rw [if_neg hgate']
  refine ⟨⟨?_, ?_⟩, ?_, ?_, ?_⟩
  · rintro ⟨w, hw, hctx⟩
    rw [hres] at hw
    obtain ⟨q, hq, rfl⟩ := List.mem_map.mp hw
    obtain ⟨hqm, hqel⟩ := List.mem_filter.mp hq
    have hqp : q = p := List.inj_on_of_nodup_map hnodup hqm hp hctx
    subst hqp
    obtain ⟨-, ht, hst⟩ := (skipEligible_true_iff e.body existing q).mp hqel
    exact ⟨hst, ht⟩
  · rintro ⟨hst, ht⟩
    refine ⟨(e.headSHA, ⟨p.context, StatusState.success, "Skipped"⟩), ?_, rfl⟩
    rw [hres]
    exact List.mem_map.mpr ⟨p, List.mem_filter.mpr
      ⟨hp, (skipEligible_true_iff e.body existing p).mpr ⟨hopt, ht, hst⟩⟩, rfl⟩
  · intro w hw hctx
    rw [hres] at hw
    obtain ⟨q, hq, rfl⟩ := List.mem_map.mp hw
    obtain ⟨hqm, -⟩ := List.mem_filter.mp hq
    have hqp : q = p := List.inj_on_of_nodup_map hnodup hqm hp hctx
    subst hqp
    rfl
  · rw [hres]
    have hsub : ((ps.filter (skipEligible e.body existing)).map Presubmit.context).Nodup :=
      hnodup.sublist ((List.filter_sublist ps).map Presubmit.context)
    have hmapeq : (((ps.filter (skipEligible e.body existing)).map
        (fun q => ((e.headSHA,
          { context := q.context, state := StatusState.success,
            description := "Skipped" }) : String × Status))).map
          (fun w => (w.2).context)) =
        (ps.filter (skipEligible e.body existing)).map Presubmit.context := by
      rw [List.map_map]
      rfl
    have hwnodup : ((ps.filter (skipEligible e.body existing)).map
        (fun q => ((e.headSHA,
          { context := q.context, state := StatusState.success,
            description := "Skipped" }) : String × Status))).Nodup :=
      List.Nodup.of_map _ (hmapeq ▸ hsub)
    exact hwnodup
  · intro w hw
    rw [hres] at hw
    obtain ⟨q, -, rfl⟩ := List.mem_map.mp hw
    rfl

/-! ## Skip Resolver fixtures -/

/-- A gated skip-command event, as in the plugin's tests. -/
def skipEvent : GenericCommentEvent :=
  { isPR := true, issueState := "open", action := GenericCommentAction.created,
    body := "/skip", headSHA := "shalala" }

/-- A required presubmit definition. -/
def requiredPresubmit : Presubmit :=
  { context := "required-tests", optional := false, triggerMatches := fun _ => false }

/-- An optional presubmit definition whose trigger does not match. -/
def optionalFailingPresubmit : Presubmit :=
  { context := "failed-tests", optional := true, triggerMatches := fun _ => false }

/-- An optional presubmit definition whose trigger matches the comment. -/
def optionalTriggeredPresubmit : Presubmit :=
  { context := "triggered-tests", optional := true, triggerMatches := fun _ => true }

def requiredStatus : Status :=
  { context := "required-tests", state := StatusState.failure, description := "" }

def failedStatus : Status :=
  { context := "failed-tests", state := StatusState.failure, description := "" }

def triggeredStatus : Status :=
  { context := "triggered-tests", state := StatusState.failure, description := "" }

/-! ## Witnesses -/

/-- Witness for C5 on a concrete duplicated-job sequence. -/
theorem terminate_slot_frame_witness :
    (TerminateOlderPresubmitJobs replaceId cleanupNone pull1 [tieJobA, tieJobB]).err = none ∧
    ((∀ j ∈ (TerminateOlderPresubmitJobs replaceId cleanupNone pull1 [tieJobA, tieJobB]).cleaned,
      ∃ pj0 npj, [tieJobA, tieJobB][j]? = some pj0 ∧
        replaceId (abortJob pj0).name (abortJob pj0) = Except.ok npj ∧
        (TerminateOlderPresubmitJobs replaceId cleanupNone pull1
          [tieJobA, tieJobB]).pjs[j]? = some npj) ∧
    (∀ j : Nat, j ∉ (TerminateOlderPresubmitJobs replaceId cleanupNone pull1
        [tieJobA, tieJobB]).cleaned →
      (TerminateOlderPresubmitJobs replaceId cleanupNone pull1
        [tieJobA, tieJobB]).pjs[j]? = [tieJobA, tieJobB][j]?)) :=
  ⟨by decide, terminate_slot_frame replaceId cleanupNone pull1 [tieJobA, tieJobB] (by decide)⟩

/-- Witness for C3 on a sequence whose first job is already complete. -/
theorem terminate_non_interference_witness :
    [doneJob, tieJobB][0]? = some doneJob ∧
    doneJob.status.complete = true ∧
    (0 ∉ (TerminateOlderPresubmitJobs replaceId cleanupNone pull1 [doneJob, tieJobB]).cleaned ∧
     (TerminateOlderPresubmitJobs replaceId cleanupNone pull1
        [doneJob, tieJobB]).pjs[0]? = some doneJob ∧
     (∀ ji r, lookupDupe (TerminateOlderPresubmitJobs replaceId cleanupNone pull1
        [doneJob, tieJobB]).dupes ji = some r → r ≠ 0)) :=
  ⟨by decide, rfl,
    terminate_non_interference replaceId cleanupNone pull1 [doneJob, tieJobB] 0 doneJob
      (by decide) (Or.inl rfl)⟩

/-- Witness for C2 with an always-failing persistence collaborator. -/
theorem terminate_fail_fast_witness :
    (TerminateOlderPresubmitJobs replaceFail cleanupNone pull1 [tieJobA, tieJobB]).err =
      some () ∧
    (∃ cleaned0 c cpj,
      (TerminateOlderPresubmitJobs replaceFail cleanupNone pull1
        [tieJobA, tieJobB]).cleaned = cleaned0 ++ [c] ∧
      c ∉ cleaned0 ∧
      [tieJobA, tieJobB][c]? = some cpj ∧
      replaceFail (abortJob cpj).name (abortJob cpj) = Except.error () ∧
      (TerminateOlderPresubmitJobs replaceFail cleanupNone pull1
        [tieJobA, tieJobB]).pjs[c]? = some cpj ∧
      (∀ j : Nat, j ∉ cleaned0 →
        (TerminateOlderPresubmitJobs replaceFail cleanupNone pull1
          [tieJobA, tieJobB]).pjs[j]? = [tieJobA, tieJobB][j]?) ∧
      (∀ j ∈ cleaned0, ∃ pj0 npj, [tieJobA, tieJobB][j]? = some pj0 ∧
        replaceFail (abortJob pj0).name (abortJob pj0) = Except.ok npj ∧
        (TerminateOlderPresubmitJobs replaceFail cleanupNone pull1
          [tieJobA, tieJobB]).pjs[j]? = some npj)) :=
  ⟨by decide,
    terminate_fail_fast replaceFail cleanupNone pull1 [tieJobA, tieJobB] () (by decide)⟩

/-- Witness for the amended C1 on a group with distinct start times. -/
theorem terminate_dedup_retains_first_max_witness :
    (∀ (s : String) (x r : ProwJob), replaceId s x = Except.ok r → r = x) ∧
    (∀ pj ∈ [tieJobA, newerJob], Cand pj →
      pj.status.state ≠ ProwJobState.aborted) ∧
    (TerminateOlderPresubmitJobs replaceId cleanupNone pull1 [tieJobA, newerJob]).err = none ∧
    [tieJobA, newerJob][0]? = some tieJobA ∧ Cand tieJobA ∧
    (∃ r rpj, [tieJobA, newerJob][r]? = some rpj ∧ Cand rpj ∧
      jobIdentifierOf pull1 rpj = jobIdentifierOf pull1 tieJobA ∧
      (TerminateOlderPresubmitJobs replaceId cleanupNone pull1
        [tieJobA, newerJob]).pjs[r]? = some rpj ∧
      rpj.status.state ≠ ProwJobState.aborted ∧
      r ∉ (TerminateOlderPresubmitJobs replaceId cleanupNone pull1
        [tieJobA, newerJob]).cleaned ∧
      (∀ j pj', [tieJobA, newerJob][j]? = some pj' → Cand pj' →
        jobIdentifierOf pull1 pj' = jobIdentifierOf pull1 tieJobA →
        pj'.status.startTime < rpj.status.startTime ∨
          (pj'.status.startTime = rpj.status.startTime ∧ r ≤ j)) ∧
      (∀ j pj', [tieJobA, newerJob][j]? = some pj' → Cand pj' →
        jobIdentifierOf pull1 pj' = jobIdentifierOf pull1 tieJobA → j ≠ r →
        (TerminateOlderPresubmitJobs replaceId cleanupNone pull1
          [tieJobA, newerJob]).cleaned.count j = 1 ∧
        (TerminateOlderPresubmitJobs replaceId cleanupNone pull1
          [tieJobA, newerJob]).pjs[j]? = some (abortJob pj'))) :=
  ⟨fun _ x r h => (Except.ok.inj h).symm, by decide, by decide, by decide, by decide,
    terminate_dedup_retains_first_max replaceId cleanupNone pull1 [tieJobA, newerJob]
      (fun _ x r h => (Except.ok.inj h).symm) (by decide) (by decide)
      (jobIdentifierOf pull1 tieJobA) 0 tieJobA (by decide) (by decide) rfl⟩

/-- Witness for C9: two different default pulls give the identical
outcome on a sequence whose candidates all carry a pull ref. -/
theorem terminate_first_pull_safe_witness :
    (∀ pj ∈ [tieJobA, tieJobB], Cand pj → pj.spec.refs.pulls ≠ []) ∧
    TerminateOlderPresubmitJobs replaceId cleanupNone ⟨0⟩ [tieJobA, tieJobB] =
      TerminateOlderPresubmitJobs replaceId cleanupNone ⟨9⟩ [tieJobA, tieJobB] :=
  ⟨by decide,
    terminate_first_pull_safe replaceId cleanupNone [tieJobA, tieJobB] ⟨0⟩ ⟨9⟩ (by decide)⟩

/-- Witness for C6 on a required definition with a failing posted
status. -/
theorem skip_required_immunity_witness :
    requiredPresubmit ∈ [requiredPresubmit] ∧
    requiredPresubmit.optional = false ∧
    ([requiredPresubmit].map Presubmit.context).Nodup ∧
    (∀ w ∈ ResolveSkips skipEvent [requiredPresubmit] [requiredStatus],
      (w.2).context ≠ requiredPresubmit.context) :=
  ⟨List.mem_singleton_self _, rfl, by simp,
    skip_required_immunity skipEvent [requiredPresubmit] [requiredStatus] requiredPresubmit
      (List.mem_singleton_self _) rfl (by simp)⟩

/-- Witness for C7 on an optional definition with a failing posted
status. -/
theorem skip_optional_iff_witness :
    (skipEvent.isPR = true ∧ skipEvent.issueState = "open" ∧
      skipEvent.action = GenericCommentAction.created) ∧
    optionalFailingPresubmit ∈ [optionalFailingPresubmit] ∧
    optionalFailingPresubmit.optional = true ∧
    ([optionalFailingPresubmit].map Presubmit.context).Nodup ∧
    (((∃ w ∈ ResolveSkips skipEvent [optionalFailingPresubmit] [failedStatus],
        (w.2).context = optionalFailingPresubmit.context) ↔
      ((∃ st, [failedStatus].find?
          (fun s => s.context == optionalFailingPresubmit.context) = some st ∧
        (st.state = StatusState.failure ∨ st.state = StatusState.pending)) ∧
        optionalFailingPresubmit.triggerMatches skipEvent.body = false)) ∧
    (∀ w ∈ ResolveSkips skipEvent [optionalFailingPresubmit] [failedStatus],
      (w.2).context = optionalFailingPresubmit.context →
      w = (skipEvent.headSHA,
        ⟨optionalFailingPresubmit.context, StatusState.success, "Skipped"⟩)) ∧
    (ResolveSkips skipEvent [optionalFailingPresubmit] [failedStatus]).Nodup ∧
    (∀ w ∈ ResolveSkips skipEvent [optionalFailingPresubmit] [failedStatus],
      w.1 = skipEvent.headSHA)) :=
  ⟨⟨rfl, rfl, rfl⟩, List.mem_singleton_self _, rfl, by simp,
    skip_optional_iff skipEvent [optionalFailingPresubmit] [failedStatus]
      optionalFailingPresubmit ⟨rfl, rfl, rfl⟩ (List.mem_singleton_self _) rfl (by simp)⟩

/-- Witness for C8 on an optional failing definition whose trigger also
matches the comment body. -/
theorem skip_retrigger_exclusion_witness :
    optionalTriggeredPresubmit ∈ [optionalTriggeredPresubmit] ∧
    optionalTriggeredPresubmit.optional = true ∧
    (∃ st, [triggeredStatus].find?
        (fun s => s.context == optionalTriggeredPresubmit.context) = some st ∧
      (st.state = StatusState.failure ∨ st.state = StatusState.pending)) ∧
    optionalTriggeredPresubmit.triggerMatches skipEvent.body = true ∧
    ([optionalTriggeredPresubmit].map Presubmit.context).Nodup ∧
    (∀ w ∈ ResolveSkips skipEvent [optionalTriggeredPresubmit] [triggeredStatus],
      (w.2).context ≠ optionalTriggeredPresubmit.context) :=
  ⟨List.mem_singleton_self _, rfl, ⟨triggeredStatus, by decide, Or.inl rfl⟩, rfl, by simp,
    skip_retrigger_exclusion skipEvent [optionalTriggeredPresubmit] [triggeredStatus]
      optionalTriggeredPresubmit (List.mem_singleton_self _) rfl
      ⟨triggeredStatus, by decide, Or.inl rfl⟩ rfl (by simp)⟩
